import Mathlib

/-!
Verification of the ntc-tesuto interactive console (src/ntc_tesuto.py).

The Python source is shallowly embedded below.  Operator input is modelled as
lists of input lines; strings are modelled as `List Char` (Python `str.split`,
`str.strip`, `str.lower`, substring `in`, and `int()` are modelled at the
ASCII/decimal level, which covers every value the program manipulates in the
claims under verification).  Remote calls are modelled by a status-code oracle
(the HTTP status the remote returns for a given call), and the side effects of
the dispatch loops are recorded as explicit event traces.
-/

namespace NtcTesuto

/-- Whitespace test used by Python `str.strip()` (ASCII model). -/
def pyWS (c : Char) : Bool := c.isWhitespace

/-- Model of Python `str.strip()`: drop whitespace from both ends. -/
def pyStrip (s : List Char) : List Char :=
  ((s.dropWhile pyWS).reverse.dropWhile pyWS).reverse

/-- Lower-casing of one character, as Python `str.lower()` does on ASCII. -/
def lowerChar (c : Char) : Char :=
  if 65 ≤ c.toNat ∧ c.toNat ≤ 90 then Char.ofNat (c.toNat + 32) else c

/-- Model of Python `str.lower()` (ASCII model). -/
def pyLower (s : List Char) : List Char := s.map lowerChar

/-- Helper for `pySplit`: returns the first segment and the remaining segments. -/
def pySplitAux (sep : Char) : List Char → List Char × List (List Char)
  | [] => ([], [])
  | c :: rest =>
    if c = sep then ([], (pySplitAux sep rest).1 :: (pySplitAux sep rest).2)
    else (c :: (pySplitAux sep rest).1, (pySplitAux sep rest).2)

/-- Model of Python `str.split(sep)` for a one-character separator: empty
segments are kept, and splitting the empty string yields one empty segment. -/
def pySplit (sep : Char) (l : List Char) : List (List Char) :=
  (pySplitAux sep l).1 :: (pySplitAux sep l).2

/-- Decimal digit test (ASCII model of the digits accepted by Python `int()`). -/
def digitB (c : Char) : Bool := decide (48 ≤ c.toNat ∧ c.toNat ≤ 57)

/-- Accumulating decimal value of a digit string. -/
def digitsValAux : List Char → Nat → Nat
  | [], acc => acc
  | c :: rest, acc => digitsValAux rest (10 * acc + (c.toNat - 48))

/-- Decimal value of a digit string. -/
def digitsVal (l : List Char) : Nat := digitsValAux l 0

/-- Parse a nonempty all-digit string, as the digit part of Python `int()`. -/
def digitsOpt (l : List Char) : Option Nat :=
  if l = [] then none
  else if l.all digitB then some (digitsVal l) else none

/-- Sign-and-digits part of Python `int()`, applied to the stripped text. -/
def pyIntCore : List Char → Option Int
  | [] => none
  | c :: rest =>
    if c = '-' then (digitsOpt rest).map (fun n => -(n : Int))
    else if c = '+' then (digitsOpt rest).map (fun n => (n : Int))
    else (digitsOpt (c :: rest)).map (fun n => (n : Int))

/-- Model of Python `int(s)` on a string: optional surrounding whitespace, an
optional sign directly attached to a nonempty run of decimal digits; anything
else raises `ValueError`, modelled as `none` (ASCII/decimal model; Python's
underscore digit grouping and non-ASCII digits are outside the program's use). -/
def pyInt (s : List Char) : Option Int := pyIntCore (pyStrip s)

/-- Decimal digit character for a value below ten. -/
def digitChar (d : Nat) : Char := Char.ofNat (48 + d)

/-- Helper for `natChars`: prepend the decimal digits of `n` to `acc`. -/
def natCharsGo (n : Nat) (acc : List Char) : List Char :=
  if h : n = 0 then acc
  else natCharsGo (n / 10) (digitChar (n % 10) :: acc)
decreasing_by exact Nat.div_lt_self (Nat.pos_of_ne_zero h) (by norm_num)

/-- Decimal representation of a natural number (the text form `"n"`). -/
def natChars (n : Nat) : List Char :=
  if n = 0 then [digitChar 0] else natCharsGo n []

/-- Model of Python `needle in hay` checked at the head of `hay`. -/
def headMatch : List Char → List Char → Bool
  | [], _ => true
  | _ :: _, [] => false
  | a :: as, b :: bs => a == b && headMatch as bs

/-- Model of Python substring containment `needle in hay`. -/
def subMatch (needle : List Char) : List Char → Bool
  | [] => headMatch needle []
  | c :: t => headMatch needle (c :: t) || subMatch needle t

/-- Code-point comparison of strings, as Python `<=` on `str` used by
`list.sort(key=lambda x: x.name)`. -/
def lexLe : List Char → List Char → Bool
  | [], _ => true
  | _ :: _, [] => false
  | a :: as, b :: bs =>
    if a.toNat < b.toNat then true
    else if b.toNat < a.toNat then false
    else lexLe as bs

/-- Model of Python `range(a, b)` materialised as the list of its elements. -/
def pyRange (a b : Int) : List Int :=
  (List.range (b - a).toNat).map (fun (i : Nat) => a + (i : Int))

/-- Emulation record (src/ntc_tesuto.py data model): `end_at` is the raw epoch
field (`0` standing for the falsy "no expiry" value), `ending_time` is the
derived display field set by `get_emulations` (the `fromtimestamp` wrapping is
modelled as tagging the epoch value with `some`). -/
structure Emulation where
  id : Nat
  name : List Char
  region : List Char
  status : List Char
  end_at : Int
  ending_time : Option Int
deriving DecidableEq

/-- Device record (src/ntc_tesuto.py data model). -/
structure Device where
  id : Nat
  emulation_id : Nat
  name : List Char
  is_enabled : Bool
deriving DecidableEq

/-- Argument of the `InvalidChoice` exception of src/ntc_tesuto.py: either the
offending raw segment or the offending parsed integer. -/
inductive InvalidChoice where
  | seg (s : List Char)
  | num (n : Int)
deriving DecidableEq

/-- Name-ordering relation used by `get_emulations`'s
`response.data.sort(key=lambda x: x.name)`. -/
def nameLe (a b : Emulation) : Prop := lexLe a.name b.name = true

instance : DecidableRel nameLe :=
  fun a b => inferInstanceAs (Decidable (lexLe a.name b.name = true))

/-- Derivation of the human-friendly ending time performed by `get_emulations`
(lines 43-49): `ending_time` is set when `end_at` is truthy, else `None`. -/
def setEndingTime (e : Emulation) : Emulation :=
  { e with ending_time := if e.end_at = 0 then none else some e.end_at }

/-- Model of `API.get_emulations` (lines 33-51) applied to the fetched list:
sort ascending by name (Python's `list.sort` is stable; modelled by the stable
`List.insertionSort`), then attach the ending-time display field. -/
def get_emulations (fetched : List Emulation) : List Emulation :=
  (List.insertionSort nameLe fetched).map setEndingTime

/-- Observable events of a batch-dispatch loop: one `applyCall` per remote
update issued, one `successNotice`/`failureNotice` per printed outcome line. -/
inductive DispatchEvent where
  | applyCall (eid : Nat)
  | successNotice (nm : List Char)
  | failureNotice (nm : List Char)
deriving DecidableEq

/-- How a batch-dispatch loop ends: `done` falls through to the
"Press [enter] to continue..." prompt (control returns to the menu);
`raised msg` is an uncaught Python `Exception(msg)` from `API._dispatch`. -/
inductive DispatchOutcome where
  | done
  | raised (msg : String)
deriving DecidableEq

/-- Model of the dispatch loop of `API.toggle_emulations` (lines 83-99), with
`put eid` the HTTP status the remote returns for updating emulation `eid`.
`API._dispatch` (lines 23-31) raises on 401/404; a 200 prints a success line
and continues; any other status prints a failure line and breaks. -/
def toggle_emulations_loop (put : Nat → Nat) : List Emulation → List DispatchEvent × DispatchOutcome
  | [] => ([], .done)
  | e :: rest =>
    if put e.id = 401 then ([.applyCall e.id], .raised "Invalid API token")
    else if put e.id = 404 then ([.applyCall e.id], .raised "Object not found")
    else if put e.id = 200 then
      let r := toggle_emulations_loop put rest
      (.applyCall e.id :: .successNotice e.name :: r.1, r.2)
    else ([.applyCall e.id, .failureNotice e.name], .done)

/-- Model of the dispatch loop of `API.toggle_devices` (lines 129-145), with
`put emuId devId` the HTTP status the remote returns for the device update. -/
def toggle_devices_loop (put : Nat → Nat → Nat) : List Device → List DispatchEvent × DispatchOutcome
  | [] => ([], .done)
  | d :: rest =>
    if put d.emulation_id d.id = 401 then ([.applyCall d.id], .raised "Invalid API token")
    else if put d.emulation_id d.id = 404 then ([.applyCall d.id], .raised "Object not found")
    else if put d.emulation_id d.id = 200 then
      let r := toggle_devices_loop put rest
      (.applyCall d.id :: .successNotice d.name :: r.1, r.2)
    else ([.applyCall d.id, .failureNotice d.name], .done)

/-- Result of `ConsoleMenu.show()` seen by the enclosing selection loop:
`show()` always returns; `tracebackPrinted` records whether the menu action
died with an uncaught exception (surfaced as a thread traceback) instead of
finishing normally. -/
inductive MenuReturn where
  | returned (tracebackPrinted : Bool)
deriving DecidableEq

/-- Modelled from the spec: the console-menu widget is an external
collaborator whose code is not part of this repository (the `consolemenu`
package; its `show()` starts the menu loop in a worker thread and joins it),
and the spec's error-handling section records the resulting behavior: a batch
dispatch never crashes the process and control returns to the enclosing
menu/loop.  A `done` outcome falls through the continue prompt and `show()`
returns; an uncaught exception from a menu action (such as the 401/404 raise
of `API._dispatch`) kills only the worker thread — its traceback is printed
by the threading excepthook — and the joining `show()` still returns to the
enclosing selection loop. -/
def menu_show : DispatchOutcome → MenuReturn
  | .done => .returned false
  | .raised _ => .returned true

/-- Outcome of the hours prompt of `API.toggle_emulations` (lines 72-81). -/
inductive TimerResult where
  | accepted (h : Int)
  | valueError (s : List Char)
  | noInput
deriving DecidableEq

/-- Model of the timer prompt loop of `API.toggle_emulations` (lines 72-81)
run on the successive operator input lines: `int(input(...))` raises an
uncaught `ValueError` on non-numeric input; an integer in `range(1, 25)` is
accepted; any other integer prints "Invalid choice: {hours}" (recorded in the
first component) and re-prompts. -/
def timerPrompt : List (List Char) → List Int × TimerResult
  | [] => ([], .noInput)
  | s :: rest =>
    match pyInt s with
    | none => ([], .valueError s)
    | some h =>
      if h ∈ pyRange 1 25 then ([], .accepted h)
      else
        let r := timerPrompt rest
        (h :: r.1, r.2)

/-- Model of the per-segment parsing of `get_user_selections` (lines 179-190):
a segment containing `-` is split on `-` and must consist of exactly two
integer parts `a`, `b` (Python's `a, b = map(int, ...)` raises `ValueError`,
turned into `InvalidChoice(segment)`, in every other case), expanding to
`range(a, b + 1)`; otherwise the segment must be a single integer. -/
def parseSegment (segment : List Char) : Except InvalidChoice (List Int) :=
  if segment.contains '-' then
    match pySplit '-' segment with
    | [x, y] =>
      match pyInt x, pyInt y with
      | some a, some b => .ok (pyRange a (b + 1))
      | _, _ => .error (.seg segment)
    | _ => .error (.seg segment)
  else
    match pyInt segment with
    | some n => .ok [n]
    | none => .error (.seg segment)

/-- Sequential accumulation of parsed segments into `selections`
(lines 179-190); the first bad segment aborts the parse. -/
def parseSegments : List (List Char) → Except InvalidChoice (List Int)
  | [] => .ok []
  | s :: rest =>
    match parseSegment s with
    | .error e => .error e
    | .ok ns =>
      match parseSegments rest with
      | .error e => .error e
      | .ok ms => .ok (ns ++ ms)

/-- Validation loop of `get_user_selections` (lines 191-194): the first parsed
integer not among `choices` raises `InvalidChoice(n)`. -/
def validateSelections (choices : List Int) : List Int → Except InvalidChoice Unit
  | [] => .ok ()
  | n :: rest =>
    if n ∈ choices then validateSelections choices rest else .error (.num n)

/-- One attempt of `get_user_selections` (lines 174-202) on a single input
line: a blank line returns the empty selection at once; otherwise the line is
split on `,`, each segment parsed, and the result validated against `choices`. -/
def get_user_selections_once (choices : List Int) (line : List Char) :
    Except InvalidChoice (List Int) :=
  if line = [] then .ok []
  else
    match parseSegments (pySplit ',' line) with
    | .error e => .error e
    | .ok sels =>
      match validateSelections choices sels with
      | .error e => .error e
      | .ok _ => .ok sels

/-- The retry loop of `get_user_selections` (lines 173-202) over the
successive operator input lines: an `InvalidChoice` prints its message and
re-prompts; exhausting the input is the `EOFError` (Ctrl+D) path returning
`None` (the cancellation sentinel). -/
def get_user_selections (choices : List Int) : List (List Char) → Option (List Int)
  | [] => none
  | line :: rest =>
    match get_user_selections_once choices line with
    | .ok sels => some sels
    | .error _ => get_user_selections choices rest

/-- Inner matching loops of `manage_devices_across_emulations` (lines 345-351)
for one emulation's device list: a device is appended to `devices_to_toggle`
once for every fragment whose stripped text occurs in the device name. -/
def devicesToToggle (user_devices : List (List Char)) (devices : List Device) : List Device :=
  devices.flatMap
    (fun d => (user_devices.filter (fun s => subMatch (pyStrip s) d.name)).map (fun _ => d))

/-- Full matching pipeline of `manage_devices_across_emulations`
(lines 337-351): the raw operator line is lower-cased, split on `,`, and the
fragments are matched against one emulation's device list. -/
def deviceMatches (rawLine : List Char) (devices : List Device) : List Device :=
  devicesToToggle (pySplit ',' (pyLower rawLine)) devices

/-! Helper lemmas about the character-level models. -/

theorem toNat_ofNat_small {n : Nat} (h : n < 55296) : (Char.ofNat n).toNat = n := by
  simp only [Char.ofNat, Nat.isValidChar]
  rw [dif_pos (Or.inl h)]
  simp [Char.ofNatAux, Char.toNat, UInt32.toNat, BitVec.toNat_ofNatLt]

theorem char_eq_of_toNat_eq {c d : Char} (h : c.toNat = d.toNat) : c = d := by
  have hc := Char.ofNat_toNat c
  have hd := Char.ofNat_toNat d
  rw [← hc, ← hd, h]

theorem digitChar_facts {d : Nat} (hd : d < 10) :
    digitB (digitChar d) = true ∧ (digitChar d).toNat - 48 = d ∧ digitChar d ≠ '-' ∧
    digitChar d ≠ '+' ∧ digitChar d ≠ ',' ∧ pyWS (digitChar d) = false := by
  interval_cases d <;> decide

theorem digitsValAux_eq (l : List Char) :
    ∀ acc : Nat, digitsValAux l acc = acc * 10 ^ l.length + digitsValAux l 0 := by
  induction l with
  | nil => intro acc; simp [digitsValAux]
  | cons c rest ih =>
    intro acc
    show digitsValAux rest (10 * acc + (c.toNat - 48)) = _
    rw [ih (10 * acc + (c.toNat - 48))]
    have h0 : digitsValAux (c :: rest) 0 = digitsValAux rest (10 * 0 + (c.toNat - 48)) := rfl
    rw [h0, ih (10 * 0 + (c.toNat - 48))]
    simp [List.length_cons]
    ring

theorem natCharsGo_val (n : Nat) :
    ∀ acc : List Char, digitsVal (natCharsGo n acc) = n * 10 ^ acc.length + digitsVal acc := by
  induction n using Nat.strong_induction_on with
  | _ n ih =>
    intro acc
    by_cases h : n = 0
    · subst h
      rw [natCharsGo]
      simp
    · rw [natCharsGo, dif_neg h]
      have hlt : n / 10 < n := Nat.div_lt_self (Nat.pos_of_ne_zero h) (by norm_num)
      rw [ih (n / 10) hlt (digitChar (n % 10) :: acc)]
      have hdv : digitsVal (digitChar (n % 10) :: acc) =
          (n % 10) * 10 ^ acc.length + digitsVal acc := by
        show digitsValAux acc (10 * 0 + ((digitChar (n % 10)).toNat - 48)) = _
        rw [(digitChar_facts (Nat.mod_lt n (by norm_num))).2.1]
        rw [digitsValAux_eq acc (10 * 0 + n % 10)]
        norm_num
        rfl
      rw [hdv, List.length_cons]
      have hnm := Nat.div_add_mod n 10
      calc n / 10 * 10 ^ (acc.length + 1) + ((n % 10) * 10 ^ acc.length + digitsVal acc)
          = (10 * (n / 10) + n % 10) * 10 ^ acc.length + digitsVal acc := by ring
        _ = n * 10 ^ acc.length + digitsVal acc := by rw [hnm]

theorem natCharsGo_mem {P : Char → Prop} (hP : ∀ d : Nat, d < 10 → P (digitChar d)) (n : Nat) :
    ∀ acc : List Char, (∀ c ∈ acc, P c) → ∀ c ∈ natCharsGo n acc, P c := by
  induction n using Nat.strong_induction_on with
  | _ n ih =>
    intro acc hacc c hc
    by_cases h : n = 0
    · subst h; rw [natCharsGo] at hc; exact hacc c hc
    · rw [natCharsGo, dif_neg h] at hc
      have hlt : n / 10 < n := Nat.div_lt_self (Nat.pos_of_ne_zero h) (by norm_num)
      refine ih (n / 10) hlt (digitChar (n % 10) :: acc) ?_ c hc
      intro x hx
      rcases List.mem_cons.mp hx with rfl | hx
      · exact hP (n % 10) (Nat.mod_lt n (by norm_num))
      · exact hacc _ hx

theorem natCharsGo_ne_nil (n : Nat) :
    ∀ acc : List Char, n ≠ 0 ∨ acc ≠ [] → natCharsGo n acc ≠ [] := by
  induction n using Nat.strong_induction_on with
  | _ n ih =>
    intro acc hor
    by_cases h : n = 0
    · subst h
      rw [natCharsGo]
      exact hor.resolve_left (by simp)
    · rw [natCharsGo, dif_neg h]
      have hlt : n / 10 < n := Nat.div_lt_self (Nat.pos_of_ne_zero h) (by norm_num)
      exact ih (n / 10) hlt _ (Or.inr (by simp))

theorem natChars_mem {P : Char → Prop} (hP : ∀ d : Nat, d < 10 → P (digitChar d)) (n : Nat) :
    ∀ c ∈ natChars n, P c := by
  intro c hc
  unfold natChars at hc
  by_cases h : n = 0
  · rw [if_pos h] at hc
    rcases List.mem_cons.mp hc with rfl | hc
    · exact hP 0 (by norm_num)
    · simp at hc
  · rw [if_neg h] at hc
    exact natCharsGo_mem hP n [] (by simp) c hc

theorem natChars_ne_nil (n : Nat) : natChars n ≠ [] := by
  unfold natChars
  by_cases h : n = 0
  · rw [if_pos h]; simp
  · rw [if_neg h]; exact natCharsGo_ne_nil n [] (Or.inl h)

theorem natChars_val (n : Nat) : digitsVal (natChars n) = n := by
  unfold natChars
  by_cases h : n = 0
  · subst h; rfl
  · rw [if_neg h]
    have := natCharsGo_val n []
    simpa using this

theorem dropWhile_all_false {p : Char → Bool} :
    ∀ {l : List Char}, (∀ c ∈ l, p c = false) → l.dropWhile p = l := by
  intro l h
  cases l with
  | nil => rfl
  | cons x xs =>
    rw [List.dropWhile_cons, h x (by simp)]
    simp

theorem pyStrip_id {l : List Char} (h : ∀ c ∈ l, pyWS c = false) : pyStrip l = l := by
  unfold pyStrip
  rw [dropWhile_all_false h]
  rw [dropWhile_all_false (by intro c hc; exact h c (List.mem_reverse.mp hc))]
  exact List.reverse_reverse l

theorem natChars_props (n : Nat) :
    ∀ c ∈ natChars n, digitB c = true ∧ c ≠ '-' ∧ c ≠ '+' ∧ c ≠ ',' ∧ pyWS c = false := by
  refine natChars_mem ?_ n
  intro d hd
  obtain ⟨h1, _, h3, h4, h5, h6⟩ := digitChar_facts hd
  exact ⟨h1, h3, h4, h5, h6⟩

theorem dash_not_mem_natChars (n : Nat) : ¬ ('-' ∈ natChars n) :=
  fun h => (natChars_props n _ h).2.1 rfl

theorem comma_not_mem_natChars (n : Nat) : ¬ (',' ∈ natChars n) :=
  fun h => (natChars_props n _ h).2.2.2.1 rfl

theorem digitsOpt_natChars (n : Nat) : digitsOpt (natChars n) = some n := by
  unfold digitsOpt
  rw [if_neg (natChars_ne_nil n)]
  rw [if_pos (List.all_eq_true.mpr (fun c hc => (natChars_props n c hc).1))]
  rw [natChars_val n]

theorem pyInt_natChars (n : Nat) : pyInt (natChars n) = some (n : Int) := by
  unfold pyInt
  rw [pyStrip_id (fun c hc => (natChars_props n c hc).2.2.2.2)]
  obtain ⟨c, rest, hcr⟩ := List.exists_cons_of_ne_nil (natChars_ne_nil n)
  have hc : c ∈ natChars n := by rw [hcr]; exact List.mem_cons_self c rest
  obtain ⟨_, hdash, hplus, _, _⟩ := natChars_props n c hc
  rw [hcr]
  show pyIntCore (c :: rest) = some (n : Int)
  simp only [pyIntCore]
  rw [if_neg hdash, if_neg hplus, ← hcr, digitsOpt_natChars n]
  rfl

theorem pySplitAux_not_mem {sep : Char} :
    ∀ {l : List Char}, sep ∉ l → pySplitAux sep l = (l, []) := by
  intro l
  induction l with
  | nil => intro _; rfl
  | cons c rest ih =>
    intro h
    have hc : c ≠ sep := fun he => h (he ▸ List.mem_cons_self c rest)
    have hr : sep ∉ rest := fun hm => h (List.mem_cons_of_mem c hm)
    simp [pySplitAux, hc, ih hr]

theorem pySplit_not_mem {sep : Char} {l : List Char} (h : sep ∉ l) : pySplit sep l = [l] := by
  unfold pySplit
  rw [pySplitAux_not_mem h]

theorem pySplitAux_append {sep : Char} {l₁ : List Char} (l₂ : List Char) (h : sep ∉ l₁) :
    pySplitAux sep (l₁ ++ sep :: l₂) =
      (l₁, (pySplitAux sep l₂).1 :: (pySplitAux sep l₂).2) := by
  induction l₁ with
  | nil => simp [pySplitAux]
  | cons c rest ih =>
    have hc : c ≠ sep := fun he => h (he ▸ List.mem_cons_self c rest)
    have hr : sep ∉ rest := fun hm => h (List.mem_cons_of_mem c hm)
    simp [pySplitAux, hc, ih hr]

theorem pySplit_append {sep : Char} {l₁ : List Char} (l₂ : List Char) (h : sep ∉ l₁) :
    pySplit sep (l₁ ++ sep :: l₂) = l₁ :: pySplit sep l₂ := by
  unfold pySplit
  rw [pySplitAux_append l₂ h]

theorem pySplitAux_last (sep : Char) (l : List Char) :
    pySplitAux sep (l ++ [sep]) = ((pySplitAux sep l).1, (pySplitAux sep l).2 ++ [[]]) := by
  induction l with
  | nil => simp [pySplitAux]
  | cons c rest ih =>
    by_cases hc : c = sep
    · subst hc
      simp [pySplitAux, ih]
    · simp [pySplitAux, hc, ih]

theorem pySplit_last (sep : Char) (l : List Char) :
    pySplit sep (l ++ [sep]) = pySplit sep l ++ [[]] := by
  unfold pySplit
  rw [pySplitAux_last sep l, List.cons_append]

theorem mem_pyRange {a b n : Int} : n ∈ pyRange a b ↔ a ≤ n ∧ n < b := by
  unfold pyRange
  simp only [List.mem_map, List.mem_range]
  constructor
  · rintro ⟨i, hi, rfl⟩
    omega
  · intro h
    exact ⟨(n - a).toNat, by omega, by omega⟩

theorem contains_iff_mem {l : List Char} {c : Char} : l.contains c = true ↔ c ∈ l := by
  simp [List.contains]

theorem parseSegment_range_text (a b : Nat) :
    parseSegment (natChars a ++ '-' :: natChars b) =
      .ok (pyRange (a : Int) ((b : Int) + 1)) := by
  unfold parseSegment
  have hmem : '-' ∈ natChars a ++ '-' :: natChars b :=
    List.mem_append_right _ (List.mem_cons_self _ _)
  rw [if_pos (contains_iff_mem.mpr hmem)]
  rw [pySplit_append (natChars b) (dash_not_mem_natChars a)]
  rw [pySplit_not_mem (dash_not_mem_natChars b)]
  show (match pyInt (natChars a), pyInt (natChars b) with
    | some a', some b' => Except.ok (pyRange a' (b' + 1))
    | _, _ => Except.error (InvalidChoice.seg (natChars a ++ '-' :: natChars b))) = _
  rw [pyInt_natChars a, pyInt_natChars b]

theorem parseSegment_error_shape {s : List Char} {e : InvalidChoice}
    (h : parseSegment s = .error e) : e = .seg s := by
  unfold parseSegment at h
  split at h
  · split at h
    · split at h
      · exact absurd h (by simp)
      · cases h; rfl
    · cases h; rfl
  · split at h
    · exact absurd h (by simp)
    · cases h; rfl

theorem parseSegments_first_err {pre : List (List Char)} {s : List Char}
    (post : List (List Char)) (hpre : ∀ t ∈ pre, ∃ v, parseSegment t = .ok v)
    (hs : parseSegment s = .error (.seg s)) :
    parseSegments (pre ++ s :: post) = .error (.seg s) := by
  induction pre with
  | nil =>
    show parseSegments (s :: post) = _
    unfold parseSegments
    rw [hs]
  | cons t rest ih =>
    obtain ⟨v, hv⟩ := hpre t (List.mem_cons_self t rest)
    show parseSegments (t :: (rest ++ s :: post)) = _
    unfold parseSegments
    rw [hv, ih (fun u hu => hpre u (List.mem_cons_of_mem t hu))]

theorem validateSelections_ok {choices l : List Int}
    (h : validateSelections choices l = .ok ()) : ∀ n ∈ l, n ∈ choices := by
  induction l with
  | nil => intro n hn; simp at hn
  | cons m rest ih =>
    intro n hn
    unfold validateSelections at h
    by_cases hm : m ∈ choices
    · rw [if_pos hm] at h
      rcases List.mem_cons.mp hn with rfl | hn
      · exact hm
      · exact ih h n hn
    · rw [if_neg hm] at h
      exact absurd h (by simp)

theorem validateSelections_err {choices l : List Int} {n : Int} (hn : n ∈ l)
    (hnc : n ∉ choices) :
    ∃ m, validateSelections choices l = .error (.num m) ∧ m ∈ l ∧ m ∉ choices := by
  induction l with
  | nil => simp at hn
  | cons m rest ih =>
    unfold validateSelections
    by_cases hm : m ∈ choices
    · rw [if_pos hm]
      rcases List.mem_cons.mp hn with rfl | hn
      · exact absurd hm hnc
      · obtain ⟨k, hk, hkm, hkc⟩ := ih hn
        exact ⟨k, hk, List.mem_cons_of_mem m hkm, hkc⟩
    · rw [if_neg hm]
      exact ⟨m, rfl, List.mem_cons_self m rest, hm⟩

theorem once_ok_subset {choices : List Int} {line : List Char} {sels : List Int}
    (h : get_user_selections_once choices line = .ok sels) : ∀ n ∈ sels, n ∈ choices := by
  unfold get_user_selections_once at h
  split at h
  · cases h
    intro n hn
    simp at hn
  · split at h
    · exact absurd h (by simp)
    · split at h
      · exact absurd h (by simp)
      · rename_i sels' _ hval _ _
        cases h
        rename_i hval'
        exact validateSelections_ok hval'

theorem headMatch_nil (l : List Char) : headMatch [] l = true := by
  cases l <;> rfl

theorem subMatch_nil (l : List Char) : subMatch [] l = true := by
  cases l <;> simp [subMatch, headMatch]

theorem mem_devicesToToggle {frags : List (List Char)} {devs : List Device} {d : Device} :
    d ∈ devicesToToggle frags devs ↔
      d ∈ devs ∧ ∃ s ∈ frags, subMatch (pyStrip s) d.name = true := by
  unfold devicesToToggle
  simp only [List.mem_flatMap, List.mem_map, List.mem_filter]
  constructor
  · rintro ⟨x, hx, s, ⟨hs, hm⟩, rfl⟩
    exact ⟨hx, s, hs, hm⟩
  · rintro ⟨hd, s, hs, hm⟩
    exact ⟨d, hd, s, ⟨hs, hm⟩, rfl⟩

theorem count_map_const {α : Type} (d x : Device) (l : List α) :
    List.count d (l.map (fun _ => x)) = if x = d then l.length else 0 := by
  induction l with
  | nil => simp
  | cons a rest ih =>
    simp only [List.map_cons, List.count_cons, ih]
    by_cases hxd : x = d
    · simp [hxd]
    · simp [hxd]

theorem count_devicesToToggle {frags : List (List Char)} {devs : List Device} {d : Device}
    (h : devs.count d = 1) :
    (devicesToToggle frags devs).count d =
      (frags.filter (fun s => subMatch (pyStrip s) d.name)).length := by
  induction devs with
  | nil => simp at h
  | cons x rest ih =>
    unfold devicesToToggle
    rw [List.flatMap_cons, List.count_append]
    by_cases hxd : x = d
    · subst hxd
      have hrest : List.count x rest = 0 := by
        rw [List.count_cons] at h
        simp at h
        omega
      have hnm : x ∉ devicesToToggle frags rest :=
        fun hm => absurd (mem_devicesToToggle.mp hm).1 (List.count_eq_zero.mp hrest)
      rw [count_map_const, if_pos rfl]
      have : (devicesToToggle frags rest).count x = 0 := List.count_eq_zero.mpr hnm
      unfold devicesToToggle at this
      rw [this]
      simp
    · have hone : rest.count d = 1 := by
        rw [List.count_cons] at h
        simp [hxd] at h
        omega
      rw [count_map_const, if_neg hxd]
      have := ih hone
      unfold devicesToToggle at this
      rw [this]
      simp

theorem lexLe_total : ∀ a b : List Char, lexLe a b = true ∨ lexLe b a = true
  | [], b => Or.inl (by cases b <;> rfl)
  | _ :: _, [] => Or.inr rfl
  | a :: as, b :: bs => by
    unfold lexLe
    rcases Nat.lt_trichotomy a.toNat b.toNat with h | h | h
    · left
      rw [if_pos h]
    · rw [if_neg (by omega), if_neg (by omega), if_neg (by omega), if_neg (by omega)]
      exact lexLe_total as bs
    · right
      rw [if_pos h]

theorem lexLe_trans : ∀ a b c : List Char,
    lexLe a b = true → lexLe b c = true → lexLe a c = true
  | [], _, c, _, _ => by cases c <;> rfl
  | _ :: _, [], _, h, _ => by cases h
  | _ :: _, _ :: _, [], _, h => by cases h
  | a :: as, b :: bs, c :: cs, h1, h2 => by
    unfold lexLe at h1 h2 ⊢
    rcases Nat.lt_trichotomy a.toNat b.toNat with hab | hab | hab
    · rcases Nat.lt_trichotomy b.toNat c.toNat with hbc | hbc | hbc
      · rw [if_pos (by omega)]
      · rw [if_pos (by omega)]
      · rw [if_neg (by omega), if_pos hbc] at h2
        exact absurd h2 (by simp)
    · rw [if_neg (by omega), if_neg (by omega)] at h1
      rcases Nat.lt_trichotomy b.toNat c.toNat with hbc | hbc | hbc
      · rw [if_pos (by omega)]
      · rw [if_neg (by omega), if_neg (by omega)] at h2
        rw [if_neg (by omega), if_neg (by omega)]
        exact lexLe_trans as bs cs h1 h2
      · rw [if_neg (by omega), if_pos hbc] at h2
        exact absurd h2 (by simp)
    · rw [if_neg (by omega), if_pos hab] at h1
      exact absurd h1 (by simp)

instance : IsTotal Emulation nameLe :=
  ⟨fun a b => lexLe_total a.name b.name⟩

instance : IsTrans Emulation nameLe :=
  ⟨fun a b c => lexLe_trans a.name b.name c.name⟩

theorem get_emulations_sorted (fetched : List Emulation) :
    List.Sorted nameLe (get_emulations fetched) := by
  unfold get_emulations
  refine List.Pairwise.map setEndingTime ?_ (List.sorted_insertionSort nameLe fetched)
  intro a b hab
  exact hab

theorem get_emulations_names_perm (fetched : List Emulation) :
    ((get_emulations fetched).map Emulation.name).Perm (fetched.map Emulation.name) := by
  unfold get_emulations
  rw [List.map_map]
  have hcmp : (Emulation.name ∘ setEndingTime) = Emulation.name := rfl
  rw [hcmp]
  exact (List.perm_insertionSort nameLe fetched).map _

theorem pyWS_bound {c : Char} (h : pyWS c = true) : c.toNat < 33 := by
  have hw : (c = ' ' || c = '\t' || c = '\r' || c = '\n') = true := h
  simp only [Bool.or_eq_true, decide_eq_true_eq] at hw
  rcases hw with ((h1 | h1) | h1) | h1 <;> subst h1 <;> decide

theorem pyWS_lowerChar (c : Char) : pyWS (lowerChar c) = pyWS c := by
  unfold lowerChar
  split
  · rename_i h
    have h1 : pyWS c = false := by
      cases hw : pyWS c
      · rfl
      · exact absurd (pyWS_bound hw) (by omega)
    have h2 : pyWS (Char.ofNat (c.toNat + 32)) = false := by
      cases hw : pyWS (Char.ofNat (c.toNat + 32))
      · rfl
      · have hb := pyWS_bound hw
        rw [toNat_ofNat_small (by omega)] at hb
        omega
    rw [h1, h2]
  · rfl

theorem lowerChar_comma_iff {c : Char} : lowerChar c = ',' ↔ c = ',' := by
  constructor
  · intro h
    unfold lowerChar at h
    split at h
    · rename_i hc
      have ht := congrArg Char.toNat h
      rw [toNat_ofNat_small (by omega)] at ht
      have h44 : (',' : Char).toNat = 44 := by decide
      rw [h44] at ht
      exfalso
      omega
    · exact h
  · intro h
    subst h
    decide

theorem pyLower_nil : pyLower [] = [] := rfl

theorem pyLower_cons (c : Char) (l : List Char) :
    pyLower (c :: l) = lowerChar c :: pyLower l := rfl

theorem pySplitAux_lower (l : List Char) :
    pySplitAux ',' (pyLower l) =
      (pyLower (pySplitAux ',' l).1, (pySplitAux ',' l).2.map pyLower) := by
  induction l with
  | nil => rfl
  | cons c rest ih =>
    have ih1 : (pySplitAux ',' (pyLower rest)).1 = pyLower (pySplitAux ',' rest).1 := by
      rw [ih]
    have ih2 : (pySplitAux ',' (pyLower rest)).2 = (pySplitAux ',' rest).2.map pyLower := by
      rw [ih]
    rw [pyLower_cons]
    by_cases hc : c = ','
    · subst hc
      rw [show lowerChar ',' = ',' from by decide]
      simp [pySplitAux, ih1, ih2, pyLower_nil]
    · have hlc : lowerChar c ≠ ',' := fun he => hc (lowerChar_comma_iff.mp he)
      simp [pySplitAux, hlc, hc, ih1, ih2, pyLower_cons]

theorem pySplit_lower (l : List Char) :
    pySplit ',' (pyLower l) = (pySplit ',' l).map pyLower := by
  unfold pySplit
  rw [pySplitAux_lower l]
  simp

theorem dropWhile_pyLower (l : List Char) :
    (pyLower l).dropWhile pyWS = pyLower (l.dropWhile pyWS) := by
  induction l with
  | nil => rfl
  | cons c rest ih =>
    show List.dropWhile pyWS (lowerChar c :: pyLower rest) = _
    rw [List.dropWhile_cons, List.dropWhile_cons, pyWS_lowerChar c]
    by_cases h : pyWS c = true
    · rw [if_pos h, if_pos h]
      exact ih
    · rw [if_neg h, if_neg h]
      rfl

theorem reverse_pyLower (l : List Char) : (pyLower l).reverse = pyLower l.reverse := by
  unfold pyLower
  rw [List.map_reverse]

theorem pyStrip_lower (l : List Char) : pyStrip (pyLower l) = pyLower (pyStrip l) := by
  unfold pyStrip
  rw [dropWhile_pyLower, reverse_pyLower, dropWhile_pyLower, reverse_pyLower]

/-! Claim theorems. -/

/-- C1, counterexample: the claim quantifies over every non-success status, but
when the failing target's status is 401 `API._dispatch` raises before the
failure print, so target `k` gets its apply call and zero failure notices,
contradicting "exactly one apply call and one failure notice for target k". -/
theorem c1_counterexample :
    toggle_emulations_loop (fun _ => 401) [⟨1, ['e'], [], [], 0, none⟩] =
      ([.applyCall 1], .raised "Invalid API token") ∧
    DispatchEvent.failureNotice ['e'] ∉
      (toggle_emulations_loop (fun _ => 401) [⟨1, ['e'], [], [], 0, none⟩]).1 := by
  constructor
  · rfl
  · decide

/-- C1 (amended): for a batch whose first `k-1` targets update with status 200
and whose `k`-th target fails with a non-success status other than 401/404,
the dispatch loops of `toggle_emulations` and `toggle_devices` issue exactly
one apply call and one success notice per target before `k`, one apply call
and one failure notice for target `k`, and nothing at all for the targets
after `k` (for 401/404 the loop instead raises after the apply call, with no
failure notice). -/
theorem c1_fail_fast :
    (∀ (put : Nat → Nat) (pre : List Emulation) (t : Emulation) (rest : List Emulation),
      (∀ e ∈ pre, put e.id = 200) →
      put t.id ≠ 200 → put t.id ≠ 401 → put t.id ≠ 404 →
      toggle_emulations_loop put (pre ++ t :: rest) =
        (pre.flatMap (fun e => [.applyCall e.id, .successNotice e.name]) ++
          [.applyCall t.id, .failureNotice t.name], .done)) ∧
    (∀ (put : Nat → Nat → Nat) (pre : List Device) (t : Device) (rest : List Device),
      (∀ d ∈ pre, put d.emulation_id d.id = 200) →
      put t.emulation_id t.id ≠ 200 → put t.emulation_id t.id ≠ 401 →
      put t.emulation_id t.id ≠ 404 →
      toggle_devices_loop put (pre ++ t :: rest) =
        (pre.flatMap (fun d => [.applyCall d.id, .successNotice d.name]) ++
          [.applyCall t.id, .failureNotice t.name], .done)) := by
  constructor
  · intro put pre t rest hpre h200 h401 h404
    induction pre with
    | nil =>
      show toggle_emulations_loop put (t :: rest) = _
      unfold toggle_emulations_loop
      rw [if_neg h401, if_neg h404, if_neg h200]
      rfl
    | cons e pres ih =>
      have he : put e.id = 200 := hpre e (List.mem_cons_self e pres)
      show toggle_emulations_loop put (e :: (pres ++ t :: rest)) = _
      unfold toggle_emulations_loop
      rw [he]
      rw [ih (fun x hx => hpre x (List.mem_cons_of_mem e hx))]
      simp
  · intro put pre t rest hpre h200 h401 h404
    induction pre with
    | nil =>
      show toggle_devices_loop put (t :: rest) = _
      unfold toggle_devices_loop
      rw [if_neg h401, if_neg h404, if_neg h200]
      rfl
    | cons d pres ih =>
      have hd : put d.emulation_id d.id = 200 := hpre d (List.mem_cons_self d pres)
      show toggle_devices_loop put (d :: (pres ++ t :: rest)) = _
      unfold toggle_devices_loop
      rw [hd]
      rw [ih (fun x hx => hpre x (List.mem_cons_of_mem d hx))]
      simp

/-- C1 witness: a three-target batch whose second target fails with status 500. -/
theorem c1_fail_fast_witness :
    toggle_emulations_loop (fun i => if i = 1 then 200 else 500)
      [⟨1, ['a'], [], [], 0, none⟩, ⟨2, ['b'], [], [], 0, none⟩, ⟨3, ['c'], [], [], 0, none⟩] =
      ([.applyCall 1, .successNotice ['a'], .applyCall 2, .failureNotice ['b']], .done) := by
  have h := c1_fail_fast.1 (fun i => if i = 1 then 200 else 500)
    [⟨1, ['a'], [], [], 0, none⟩] ⟨2, ['b'], [], [], 0, none⟩ [⟨3, ['c'], [], [], 0, none⟩]
    (by decide) (by decide) (by decide) (by decide)
  simpa using h

/-- C3, counterexample: the claim fails for a 404 on its per-entity failure
notice clause: `_dispatch` raises before the failure print, so the only
recorded events are the apply call and the raised "Object not found" — no
failure notice is ever emitted for the entity. -/
theorem c3_counterexample :
    toggle_emulations_loop (fun _ => 404) [⟨7, ['x'], [], [], 0, none⟩] =
      ([.applyCall 7], .raised "Object not found") ∧
    DispatchEvent.failureNotice ['x'] ∉
      (toggle_emulations_loop (fun _ => 404) [⟨7, ['x'], [], [], 0, none⟩]).1 := by
  refine ⟨rfl, ?_⟩
  decide

/-- C3 (amended): every remote-call failure halts the current batch, does not
crash the process, and control returns to the enclosing menu/loop —
`menu_show` returns for every dispatch outcome, since an uncaught exception
kills only consolemenu's worker thread; but the per-entity failure notice is
printed only for non-success statuses other than 401/404, while a 401 or 404
raises "Invalid API token" / "Object not found" from `_dispatch` with no
per-entity notice (a thread traceback is surfaced instead). -/
theorem c3_failure_handling :
    (∀ (put : Nat → Nat) (e : Emulation) (rest : List Emulation),
      put e.id ≠ 200 → put e.id ≠ 401 → put e.id ≠ 404 →
      toggle_emulations_loop put (e :: rest) =
        ([.applyCall e.id, .failureNotice e.name], .done)) ∧
    (∀ (put : Nat → Nat) (e : Emulation) (rest : List Emulation),
      put e.id = 401 →
      toggle_emulations_loop put (e :: rest) =
        ([.applyCall e.id], .raised "Invalid API token")) ∧
    (∀ (put : Nat → Nat) (e : Emulation) (rest : List Emulation),
      put e.id = 404 →
      toggle_emulations_loop put (e :: rest) =
        ([.applyCall e.id], .raised "Object not found")) ∧
    (∀ out : DispatchOutcome, ∃ traceback, menu_show out = .returned traceback) := by
  refine ⟨?_, ?_, ?_, ?_⟩
  · intro put e rest h200 h401 h404
    unfold toggle_emulations_loop
    rw [if_neg h401, if_neg h404, if_neg h200]
  · intro put e rest h401
    unfold toggle_emulations_loop
    rw [if_pos h401]
  · intro put e rest h404
    unfold toggle_emulations_loop
    rw [if_neg (by omega : ¬ put e.id = 401), if_pos h404]
  · intro out
    cases out with
    | done => exact ⟨false, rfl⟩
    | raised msg => exact ⟨true, rfl⟩

/-- C3 witness: a single-target batch failing with status 500 prints the
failure notice and finishes normally. -/
theorem c3_failure_handling_witness :
    toggle_emulations_loop (fun _ => 500) [⟨4, ['z'], [], [], 0, none⟩] =
      ([.applyCall 4, .failureNotice ['z']], .done) :=
  c3_failure_handling.1 (fun _ => 500) ⟨4, ['z'], [], [], 0, none⟩ []
    (by decide) (by decide) (by decide)

/-- C4, counterexample: the claim quantifies over every pair of integers, but
for `a = -2, b = 1` the rendered segment "-2-1" splits on `-` into three
parts, so `int()` raises and the parser reports `InvalidChoice("-2-1")`
instead of yielding `[-2, -1, 0, 1]`. -/
theorem c4_counterexample :
    parseSegment ['-', '2', '-', '1'] = .error (.seg ['-', '2', '-', '1']) ∧
    parseSegment ['-', '2', '-', '1'] ≠ .ok [-2, -1, 0, 1] := by
  have h1 : parseSegment ['-', '2', '-', '1'] = .error (.seg ['-', '2', '-', '1']) := rfl
  refine ⟨h1, ?_⟩
  rw [h1]
  exact fun h => Except.noConfusion h

/-- C4 (amended to nonnegative bounds): for every pair of nonnegative integers
`a <= b`, parsing the segment "a-b" yields exactly the integers
`[a, a+1, ..., b]` in that order. -/
theorem c4_range_parse (a b : Nat) (h : a ≤ b) :
    parseSegment (natChars a ++ '-' :: natChars b) =
      .ok ((List.range (b + 1 - a)).map (fun (i : Nat) => (a : Int) + (i : Int))) := by
  rw [parseSegment_range_text a b]
  congr 1
  unfold pyRange
  have ht : ((b : Int) + 1 - (a : Int)).toNat = b + 1 - a := by omega
  rw [ht]

/-- C4 witness: the segment "3-5" expands to `[3, 4, 5]`. -/
theorem c4_range_parse_witness :
    parseSegment (natChars 3 ++ '-' :: natChars 5) = .ok [3, 4, 5] := by
  have h := c4_range_parse 3 5 (by decide)
  rw [h]
  rfl

/-- C5, counterexample: a reversed range is not an invalid-choice error; the
line "5-3" parses successfully, `range(5, 3+1)` is empty, and the parser
returns the empty selection. -/
theorem c5_counterexample :
    get_user_selections_once (pyRange 1 11) ['5', '-', '3'] = .ok [] ∧
    get_user_selections_once (pyRange 1 11) ['5', '-', '3'] ≠
      .error (.seg ['5', '-', '3']) := by
  have h1 : get_user_selections_once (pyRange 1 11) ['5', '-', '3'] = .ok [] := rfl
  refine ⟨h1, ?_⟩
  rw [h1]
  exact fun h => Except.noConfusion h

/-- C5 (amended): a line whose first bad segment `s` is neither an integer
nor two `-`-separated integer parts fails with an invalid-choice error naming
exactly `s`, no selection is returned, and the retry loop moves to the next
prompt; a reversed range `a-b` with `a > b`, however, is accepted and expands
to no integers at all. -/
theorem c5_invalid_segment :
    (∀ (choices : List Int) (line : List Char) (pre : List (List Char)) (s : List Char)
       (post : List (List Char)) (rest : List (List Char)),
      line ≠ [] →
      pySplit ',' line = pre ++ s :: post →
      (∀ t ∈ pre, ∃ v, parseSegment t = .ok v) →
      parseSegment s = .error (.seg s) →
      get_user_selections_once choices line = .error (.seg s) ∧
        get_user_selections choices (line :: rest) = get_user_selections choices rest) ∧
    (∀ a b : Nat, b < a → parseSegment (natChars a ++ '-' :: natChars b) = .ok []) := by
  constructor
  · intro choices line pre s post rest hne hsplit hpre hs
    have honce : get_user_selections_once choices line = .error (.seg s) := by
      unfold get_user_selections_once
      rw [if_neg hne, hsplit, parseSegments_first_err post hpre hs]
    refine ⟨honce, ?_⟩
    show (match get_user_selections_once choices line with
      | .ok sels => some sels
      | .error _ => get_user_selections choices rest) = _
    rw [honce]
  · intro a b hba
    rw [parseSegment_range_text a b]
    congr 1
    unfold pyRange
    have ht : ((b : Int) + 1 - (a : Int)).toNat = 0 := by omega
    rw [ht]
    rfl

/-- C5 witness: the line "1,x" fails naming the segment "x". -/
theorem c5_invalid_segment_witness :
    get_user_selections_once [1, 2, 3] ['1', ',', 'x'] = .error (.seg ['x']) :=
  (c5_invalid_segment.1 [1, 2, 3] ['1', ',', 'x'] [['1']] ['x'] [] []
    (by decide) rfl
    (by
      intro t ht
      rw [List.mem_singleton] at ht
      subst ht
      exact ⟨[1], rfl⟩)
    rfl).1

/-- C8: a successfully parsed selection only contains members of `choices`; a
parsed integer outside `choices` turns the whole attempt into an
invalid-choice error naming an offending integer (the first one found), with
no selection returned and the prompt restarting; and with the selection
loops' `choices = range(1, len+1)`, every returned index accesses
`list[n-1]` in bounds. -/
theorem c8_validated_selection :
    (∀ (choices : List Int) (line : List Char) (sels : List Int),
      get_user_selections_once choices line = .ok sels → ∀ n ∈ sels, n ∈ choices) ∧
    (∀ (choices : List Int) (line : List Char) (sels : List Int) (n : Int),
      line ≠ [] → parseSegments (pySplit ',' line) = .ok sels → n ∈ sels → n ∉ choices →
      ∃ m, get_user_selections_once choices line = .error (.num m) ∧ m ∈ sels ∧ m ∉ choices) ∧
    (∀ (choices : List Int) (line : List Char) (rest : List (List Char)) (e : InvalidChoice),
      get_user_selections_once choices line = .error e →
      get_user_selections choices (line :: rest) = get_user_selections choices rest) ∧
    (∀ (len : Nat) (line : List Char) (sels : List Int),
      get_user_selections_once (pyRange 1 ((len : Int) + 1)) line = .ok sels →
      ∀ n ∈ sels, (n - 1).toNat < len) := by
  refine ⟨fun _ _ _ h => once_ok_subset h, ?_, ?_, ?_⟩
  · intro choices line sels n hne hp hn hnc
    obtain ⟨m, hm, hmm, hmc⟩ := validateSelections_err hn hnc
    refine ⟨m, ?_, hmm, hmc⟩
    unfold get_user_selections_once
    rw [if_neg hne, hp]
    show (match validateSelections choices sels with
      | .error e => Except.error e
      | .ok _ => Except.ok sels) = _
    rw [hm]
  · intro choices line rest e h
    show (match get_user_selections_once choices line with
      | .ok sels => some sels
      | .error _ => get_user_selections choices rest) = _
    rw [h]
  · intro len line sels h n hn
    have hm := once_ok_subset h n hn
    have := mem_pyRange.mp hm
    omega

/-- C8 witness: with choices `{1,2,3}` the line "4" is rejected naming 4, and
the line "2,3" is accepted with both indices in bounds. -/
theorem c8_validated_selection_witness :
    get_user_selections_once [1, 2, 3] ['4'] = .error (.num 4) ∧
    ((2 : Int) - 1).toNat < 3 := by
  constructor
  · obtain ⟨m, hm, hmm, hmc⟩ :=
      c8_validated_selection.2.1 [1, 2, 3] ['4'] [4] 4 (by decide) rfl
        (List.mem_singleton.mpr rfl) (by decide)
    rw [List.mem_singleton] at hmm
    rw [hmm] at hm
    exact hm
  · exact c8_validated_selection.2.2.2 3 ['2', ',', '3'] [2, 3] rfl 2
      (List.mem_cons_self 2 [3])

/-- C6, counterexample: non-numeric input is not re-prompted;
`int(input(...))` raises an uncaught `ValueError`, so on inputs "abc" then
"5" the prompt crashes instead of eventually accepting 5. -/
theorem c6_counterexample :
    timerPrompt [['a', 'b', 'c'], ['5']] = ([], .valueError ['a', 'b', 'c']) ∧
    (timerPrompt [['a', 'b', 'c'], ['5']]).2 ≠ .accepted 5 := by
  have h1 : timerPrompt [['a', 'b', 'c'], ['5']] = ([], .valueError ['a', 'b', 'c']) := rfl
  refine ⟨h1, ?_⟩
  rw [h1]
  exact fun h => TimerResult.noConfusion h

/-- C6 (amended): an integer input outside [1, 24] is rejected with an
"Invalid choice" message and the prompt repeats; an integer in [1, 24] is
accepted; but a non-numeric input raises an uncaught `ValueError` that ends
the prompt loop. -/
theorem c6_timer_prompt :
    (∀ (s : List Char) (rest : List (List Char)),
      pyInt s = none → timerPrompt (s :: rest) = ([], .valueError s)) ∧
    (∀ (s : List Char) (h : Int) (rest : List (List Char)),
      pyInt s = some h → (h < 1 ∨ 24 < h) →
      timerPrompt (s :: rest) = (h :: (timerPrompt rest).1, (timerPrompt rest).2)) ∧
    (∀ (s : List Char) (h : Int) (rest : List (List Char)),
      pyInt s = some h → 1 ≤ h → h ≤ 24 → timerPrompt (s :: rest) = ([], .accepted h)) := by
  refine ⟨?_, ?_, ?_⟩
  · intro s rest hs
    unfold timerPrompt
    rw [hs]
  · intro s h rest hs hout
    conv_lhs => rw [timerPrompt]
    rw [hs]
    show (if h ∈ pyRange 1 25 then _ else _) = _
    rw [if_neg (fun hm => by have := mem_pyRange.mp hm; omega)]
  · intro s h rest hs h1 h24
    unfold timerPrompt
    rw [hs]
    show (if h ∈ pyRange 1 25 then _ else _) = _
    rw [if_pos (mem_pyRange.mpr (by omega))]

/-- C6 witness: input "30" is rejected with a message and re-prompted, then
"5" is accepted. -/
theorem c6_timer_prompt_witness :
    timerPrompt [['3', '0'], ['5']] = ([30], .accepted 5) := by
  rw [c6_timer_prompt.2.1 ['3', '0'] 30 [['5']] rfl (by omega)]
  rw [c6_timer_prompt.2.2 ['5'] 5 [] rfl (by omega) (by omega)]

/-- C2, counterexample: the inner loops append a device once per matching
fragment with no deduplication; for devices csr1, csr2, vmx1 and the operator
line "csr1,csr" the device csr1 is appended twice, not once. -/
theorem c2_counterexample :
    List.count (⟨1, 0, ['c', 's', 'r', '1'], true⟩ : Device)
      (deviceMatches ['c', 's', 'r', '1', ',', 'c', 's', 'r']
        [⟨1, 0, ['c', 's', 'r', '1'], true⟩, ⟨2, 0, ['c', 's', 'r', '2'], true⟩,
         ⟨3, 0, ['v', 'm', 'x', '1'], true⟩]) = 2 := by
  rfl

/-- C2 (amended): a device occurring once in the emulation's device list
appears in `devices_to_toggle` once per fragment whose stripped text occurs
in its name — so a device matched by two fragments is toggled twice. -/
theorem c2_per_fragment_count (rawLine : List Char) (devices : List Device) (d : Device)
    (h : devices.count d = 1) :
    (deviceMatches rawLine devices).count d =
      ((pySplit ',' (pyLower rawLine)).filter
        (fun s => subMatch (pyStrip s) d.name)).length := by
  unfold deviceMatches
  exact count_devicesToToggle h

/-- C2 witness: in the counterexample scenario, csr2 matches only the
fragment "csr" and appears exactly once. -/
theorem c2_per_fragment_count_witness :
    (deviceMatches ['c', 's', 'r', '1', ',', 'c', 's', 'r']
      [⟨1, 0, ['c', 's', 'r', '1'], true⟩, ⟨2, 0, ['c', 's', 'r', '2'], true⟩,
       ⟨3, 0, ['v', 'm', 'x', '1'], true⟩]).count ⟨2, 0, ['c', 's', 'r', '2'], true⟩ = 1 := by
  rw [c2_per_fragment_count ['c', 's', 'r', '1', ',', 'c', 's', 'r']
    [⟨1, 0, ['c', 's', 'r', '1'], true⟩, ⟨2, 0, ['c', 's', 'r', '2'], true⟩,
     ⟨3, 0, ['v', 'm', 'x', '1'], true⟩] ⟨2, 0, ['c', 's', 'r', '2'], true⟩ (by rfl)]
  rfl

/-- C7, counterexample: only the operator's input is lower-cased, not the
device names; the device named "CSR1" is not matched by the operator input
"CSR1", even though the claim's both-sides-lowered criterion holds for it. -/
theorem c7_counterexample :
    deviceMatches ['C', 'S', 'R', '1'] [⟨1, 0, ['C', 'S', 'R', '1'], true⟩] = [] ∧
    subMatch (pyStrip (pyLower ['C', 'S', 'R', '1']))
      (pyLower ['C', 'S', 'R', '1']) = true := by
  constructor
  · rfl
  · rfl

/-- C7 (amended): a device is selected iff its name contains, case
sensitively, the lower-cased and stripped text of some comma-separated
fragment of the operator's raw line: lowering is applied to the operator's
input only, never to the device name. -/
theorem c7_match_characterisation (rawLine : List Char) (devices : List Device) (d : Device) :
    d ∈ deviceMatches rawLine devices ↔
      d ∈ devices ∧ ∃ s ∈ pySplit ',' rawLine,
        subMatch (pyLower (pyStrip s)) d.name = true := by
  unfold deviceMatches
  rw [mem_devicesToToggle, pySplit_lower]
  constructor
  · rintro ⟨hd, s, hs, hm⟩
    obtain ⟨t, ht, rfl⟩ := List.mem_map.mp hs
    rw [pyStrip_lower] at hm
    exact ⟨hd, t, ht, hm⟩
  · rintro ⟨hd, t, ht, hm⟩
    refine ⟨hd, pyLower t, List.mem_map.mpr ⟨t, ht, rfl⟩, ?_⟩
    rw [pyStrip_lower]
    exact hm

/-- C10: splitting keeps empty fragments and the empty fragment is a
substring of every name, so a blank operator line, or one ending in a comma,
selects every device of the emulation. -/
theorem c10_blank_or_trailing_comma (rawLine : List Char) (devices : List Device) (d : Device)
    (h : rawLine = [] ∨ ∃ l, rawLine = l ++ [',']) (hd : d ∈ devices) :
    d ∈ deviceMatches rawLine devices := by
  unfold deviceMatches
  rw [mem_devicesToToggle]
  refine ⟨hd, [], ?_, subMatch_nil d.name⟩
  rcases h with rfl | ⟨l, rfl⟩
  · exact List.mem_singleton.mpr rfl
  · have hl : pyLower (l ++ [',']) = pyLower l ++ [','] := by
      unfold pyLower
      rw [List.map_append]
      rfl
    rw [hl, pySplit_last]
    exact List.mem_append_right _ (List.mem_singleton.mpr rfl)

/-- C10 witness: the line "csr," selects a device named vmx. -/
theorem c10_blank_or_trailing_comma_witness :
    (⟨1, 0, ['v', 'm', 'x'], true⟩ : Device) ∈
      deviceMatches ['c', 's', 'r', ','] [⟨1, 0, ['v', 'm', 'x'], true⟩] :=
  c10_blank_or_trailing_comma ['c', 's', 'r', ','] [⟨1, 0, ['v', 'm', 'x'], true⟩]
    ⟨1, 0, ['v', 'm', 'x'], true⟩ (Or.inr ⟨['c', 's', 'r'], rfl⟩)
    (List.mem_singleton.mpr rfl)

/-- C9: `get_emulations` returns the fetched emulations sorted ascending by
name (the list displayed by the selection loop is exactly this value), the
names are a permutation of the fetched ones, and the spec's example
`[{name:"b"}, {name:"a"}]` comes back in the order `["a", "b"]`. -/
theorem c9_sorted_by_name :
    (∀ fetched : List Emulation, List.Sorted nameLe (get_emulations fetched)) ∧
    (∀ fetched : List Emulation,
      ((get_emulations fetched).map Emulation.name).Perm (fetched.map Emulation.name)) ∧
    (get_emulations [⟨1, ['b'], [], [], 0, none⟩, ⟨2, ['a'], [], [], 0, none⟩]).map
      Emulation.name = [['a'], ['b']] :=
  ⟨get_emulations_sorted, get_emulations_names_perm, rfl⟩

end NtcTesuto
